import Mathlib

/-!
Verification of `scripts/release.go`, a GitHub release-asset uploader.

The Go program is shallowly embedded: pure string and path manipulation is
translated directly; external effects (environment lookup, `url.Parse` of the
base URL, `os.Stat`, HTTP round trips) are passed in as explicit parameters,
so every function here is a pure function of the program inputs and the
responses of the outside world.
-/

namespace Release

/-- Environment variable names, from the `const` block of release.go. -/
def envActions : String := "GITHUB_ACTIONS"

def envAPIURL : String := "GITHUB_API_URL"

def envRef : String := "GITHUB_REF_NAME"

def envRepo : String := "GITHUB_REPOSITORY"

def envToken : String := "GITHUB_TOKEN"

def envActionsValTrue : String := "true"

def contentTypeZIP : String := "application/zip"

def contentTypeTARGZ : String := "application/gzip"

/-- A parsed URL, the parts of Go `net/url.URL` this program touches.
The query is modelled in decoded form as a list of key/value pairs
(Go `url.Values`; percent-encoding and `Encode`'s key sorting are
abstracted away). -/
structure URL where
  scheme : String
  host : String
  path : String
  query : List (String × String)
deriving DecidableEq, Repr

/-- Go `client` struct from release.go. -/
structure Client where
  baseURL : URL
  repo : String
  ref : String
  token : String
deriving DecidableEq, Repr

/-- Go `strings.HasSuffix`, at the character level (the suffixes this
program tests are ASCII, where Go's byte-level check coincides). -/
def hasSuffix (s suffix : String) : Bool :=
  suffix.toList.isSuffixOf s.toList

/-- Split a character list at every `/`, keeping empty segments, as Go's
path code views a slash-separated path. -/
def splitOnSlash : List Char → List (List Char)
  | [] => [[]]
  | c :: rest =>
    if c = '/' then [] :: splitOnSlash rest
    else
      match splitOnSlash rest with
      | [] => [[c]]
      | s :: ss => (c :: s) :: ss

/-- Go's `path[0] == '/'` test: whether the path is rooted. -/
def isRooted (p : String) : Bool :=
  match p.toList with
  | [] => false
  | c :: _ => c == '/'

/-- One step of Go `path.Clean`, processing a single slash-separated
segment against a stack of kept segments (held most-recent-first). -/
def cleanPush (rooted : Bool) (stack : List String) (seg : String) : List String :=
  if seg = "" ∨ seg = "." then stack
  else if seg = ".." then
    match stack with
    | [] => if rooted then [] else [".."]
    | top :: rest => if top = ".." then seg :: stack else rest
  else seg :: stack

/-- Go `path.Clean`: lexical simplification of a slash-separated path
(collapse multiple slashes, drop `.` segments, resolve `..` segments,
`""` cleans to `"."`). -/
def pathClean (p : String) : String :=
  if p = "" then "."
  else
    let rooted := isRooted p
    let segs := ((splitOnSlash p.toList).map String.mk).foldl (cleanPush rooted) []
    let out := String.intercalate "/" segs.reverse
    if rooted then "/" ++ out
    else if out = "" then "." else out

/-- Go `path.Join`: drop leading empty elements, join the rest with `/`,
then `Clean` the result (`filepath.Join` coincides with this on Unix
paths, which is all this program uses). -/
def pathJoin (elems : List String) : String :=
  match elems.dropWhile (fun e => e = "") with
  | [] => ""
  | l => pathClean (String.intercalate "/" l)

/-- Go `filepath.Base` for Unix paths: strip trailing slashes and return
the final path element (`""` gives `"."`, an all-slash path gives `"/"`). -/
def filepathBase (p : String) : String :=
  if p = "" then "."
  else
    let q := String.mk ((p.toList.reverse.dropWhile (fun c => c = '/')).reverse)
    if q = "" then "/"
    else String.mk ((q.toList.reverse.takeWhile (fun c => c ≠ '/')).reverse)

/-- The template-stripping step at the end of `client.uploadURL`:
`if i := strings.Index(uploadURL, "\x7b"); i >= 0 \x7b uploadURL = uploadURL[:i] \x7d`.
Truncates the string at the first opening brace, if any. -/
def stripUploadTemplate (s : String) : String :=
  match s.toList.findIdx? (fun c => c = '{') with
  | some i => String.mk (s.toList.take i)
  | none => s

/-- Model of `clientFromEnv` from release.go. `env` models the environment-lookup
function it receives (Go `os.Getenv`: an unset variable reads as `""`);
`parseURL` models `url.Parse`, with `none` standing for a parse error. -/
def clientFromEnv (parseURL : String → Option URL) (env : String → String) :
    Except String Client :=
  if env envActions ≠ envActionsValTrue then
    Except.error "not running under github actions"
  else if env envAPIURL = "" then
    Except.error ("expected environment variable not present: " ++ envAPIURL)
  else if env envRef = "" then
    Except.error ("expected environment variable not present: " ++ envRef)
  else if env envRepo = "" then
    Except.error ("expected environment variable not present: " ++ envRepo)
  else if env envToken = "" then
    Except.error ("expected environment variable not present: " ++ envToken)
  else
    match parseURL (env envAPIURL) with
    | none => Except.error "parsing base URL"
    | some u =>
      Except.ok { baseURL := u, repo := env envRepo, ref := env envRef,
                  token := env envToken }

/-- Render a URL as Go prints it for this program's URLs:
scheme://host + path, plus the query when non-empty. -/
def urlString (u : URL) : String :=
  u.scheme ++ "://" ++ u.host ++ u.path ++
    (if u.query = [] then ""
     else "?" ++ String.intercalate "&"
       (u.query.map (fun p => p.1 ++ "=" ++ p.2)))

/-- Go `stringContainsCTLByte`'s per-byte test: a control byte is below
space or is DEL (for valid UTF-8 this character-level test coincides with
Go's byte-level one, since multi-byte characters contain no bytes below
0x80). -/
def isCTLByte (c : Char) : Bool :=
  c.toNat < 32 || c.toNat = 127

/-- Go `net/url`'s `ishex`: an ASCII hexadecimal digit. -/
def ishex (c : Char) : Bool :=
  (decide ('0' ≤ c) && decide (c ≤ '9')) ||
  (decide ('a' ≤ c) && decide (c ≤ 'f')) ||
  (decide ('A' ≤ c) && decide (c ≤ 'F'))

/-- The error condition of Go `net/url.unescape` (path and fragment
modes): every `%` must be followed by two hex digits. -/
def validEscapes : List Char → Bool
  | [] => true
  | c :: rest =>
    if c = '%' then
      match rest with
      | a :: b :: rest2 => ishex a && ishex b && validEscapes rest2
      | _ => false
    else validEscapes rest

/-- Go `strings.Cut` at a separator character: the part before the first
occurrence, and the part after it when the separator occurs. -/
def splitAtFirst (sep : Char) : List Char → List Char × Option (List Char)
  | [] => ([], none)
  | c :: rest =>
    if c = sep then ([], some rest)
    else
      ((splitAtFirst sep rest).1.cons c, (splitAtFirst sep rest).2)

/-- The parts of the parsed reference URL that `client.uploadURL`'s
`c.baseURL.Parse` produces for the rootless-scheme, absolute-path strings
`path.Join` returns: escaped path, raw query (`some ""` models Go's
`ForceQuery` for a trailing lone `?`), and fragment. -/
structure RefURL where
  path : String
  rawQuery : Option String
  fragment : String
deriving DecidableEq, Repr

/-- Model of Go `url.Parse` on the output of `path.Join` (always a
cleaned absolute path, so the scheme and authority branches of `parse`
are unreachable): cut the fragment at the first `#`, reject control
bytes before the fragment, cut the query at the first `?`, and reject
invalid percent-escapes in the path and fragment parts (the query is
kept raw and unvalidated, as Go does). -/
def parseRef (rawURL : String) : Except String RefURL :=
  let cut := splitAtFirst '#' rawURL.toList
  if cut.1.any isCTLByte then
    Except.error "net/url: invalid control character in URL"
  else
    let pq := splitAtFirst '?' cut.1
    if validEscapes pq.1 = false then
      Except.error "invalid URL escape"
    else
      match cut.2 with
      | none =>
        Except.ok { path := String.mk pq.1, rawQuery := pq.2.map String.mk,
                    fragment := "" }
      | some f =>
        if validEscapes f = false then
          Except.error "invalid URL escape"
        else
          Except.ok { path := String.mk pq.1, rawQuery := pq.2.map String.mk,
                      fragment := String.mk f }

/-- Go `resolvePath`'s `..` and `.` handling, one segment at a time
against a stack of kept segments (held most-recent-first): `.` is
dropped, `..` pops the last kept segment, anything else is kept. -/
def resolveSegsPush (stack : List String) (seg : String) : List String :=
  if seg = "." then stack
  else if seg = ".." then stack.tail
  else seg :: stack

/-- Go `strings.TrimPrefix(s, "/")`: drop one leading slash if present. -/
def trimOneSlash (s : String) : String :=
  match s.toList with
  | '/' :: rest => String.mk rest
  | _ => s

/-- Go `resolvePath` (RFC 3986 dot-segment removal) as `ResolveReference`
applies it to an absolute reference path: process the slash-separated
segments, append a trailing slash when the last segment is `.` or `..`,
and normalise to a single leading slash. -/
def resolvePathGo (ref : List Char) : String :=
  let segs := (splitOnSlash ref).map String.mk
  let stack := segs.foldl resolveSegsPush []
  let out := String.intercalate "/" stack.reverse
  let lastSeg := (segs.getLast?).getD ""
  let out2 := if lastSeg = "." ∨ lastSeg = ".." then out ++ "/" else out
  "/" ++ trimOneSlash out2

/-- The resolved lookup-request URL: Go `ResolveReference` keeps the base
URL's scheme and host for a reference with neither, replaces the path by
`resolvePath` of the reference's path (dropping the base URL's own path),
and takes query and fragment from the reference. -/
structure LookupURL where
  scheme : String
  host : String
  path : String
  rawQuery : Option String
  fragment : String
deriving DecidableEq, Repr

/-- Go `(*url.URL).ResolveReference` for the parsed absolute-path
reference against the configured base URL. -/
def resolveRef (base : URL) (r : RefURL) : LookupURL :=
  { scheme := base.scheme, host := base.host,
    path := resolvePathGo r.path.toList,
    rawQuery := r.rawQuery, fragment := r.fragment }

/-- Go `(*url.URL).String` for the resolved lookup URL: `?` is rendered
when a query part was cut (even empty, Go's `ForceQuery`), `#` only for a
non-empty fragment. -/
def lookupURLString (u : LookupURL) : String :=
  u.scheme ++ "://" ++ u.host ++ u.path ++
    (match u.rawQuery with
     | none => ""
     | some q => "?" ++ q) ++
    (if u.fragment = "" then "" else "#" ++ u.fragment)

/-- A repository or tag string is plain when its slash-split segments
are non-empty and are not dot segments, and it contains no query,
fragment, percent-escape or control characters. GitHub repository
identifiers (`owner/name`) and ordinary tag names are plain. -/
def plainSegments (s : String) : Prop :=
  (∀ seg ∈ splitOnSlash s.toList, seg ≠ [] ∧ seg ≠ ['.'] ∧ seg ≠ ['.', '.'])
  ∧ ∀ ch ∈ s.toList, ch ≠ '?' ∧ ch ≠ '#' ∧ ch ≠ '%' ∧ isCTLByte ch = false

instance (s : String) : Decidable (plainSegments s) := by
  unfold plainSegments
  exact inferInstance

/-- The request-URL construction of `client.uploadURL`:
`c.baseURL.Parse(path.Join("/repos", c.repo, "releases/tags", c.ref))`,
with the reference parse's error branch. -/
def uploadURLReq (c : Client) : Except String LookupURL :=
  match parseRef (pathJoin ["/repos", c.repo, "releases/tags", c.ref]) with
  | Except.error e => Except.error e
  | Except.ok r => Except.ok (resolveRef c.baseURL r)

/-- A wire response as `client.uploadURL` consumes it: status code, status
text, and the `upload_url` string decoded from the JSON body (`none`
models a JSON decoding failure). -/
structure LookupResponse where
  status : Nat
  statusText : String
  decodedUploadURL : Option String
deriving DecidableEq, Repr

/-- Model of `client.uploadURL` from release.go. `respond` models the HTTP round
trip `http.DefaultClient.Do` plus the JSON decode of the body: given the
request URL it yields the response. Requires status 200, then strips the
hypermedia template from the decoded `upload_url`. -/
def uploadURLFn (c : Client) (respond : LookupURL → LookupResponse) : Except String String :=
  match uploadURLReq c with
  | Except.error e => Except.error ("parse url: " ++ e)
  | Except.ok u =>
    let resp := respond u
    if resp.status ≠ 200 then
      Except.error ("unexpected status code: " ++ resp.statusText)
    else
      match resp.decodedUploadURL with
      | none => Except.error "decoding response"
      | some s => Except.ok (stripUploadTemplate s)

/-- Go `url.Values.Set`: replace every binding of the key with the single
new value (`Encode`'s key sorting is abstracted; bindings of other keys
keep their order). -/
def querySet (q : List (String × String)) (k v : String) : List (String × String) :=
  q.filter (fun p => p.1 ≠ k) ++ [(k, v)]

/-- The POST request `client.upload` builds: method, URL (with the `name`
query parameter set), headers in the order the code sets them, and the
content length taken from `stat.Size()`. -/
structure UploadRequest where
  method : String
  url : URL
  headers : List (String × String)
  contentLength : Int
deriving DecidableEq, Repr

/-- Request construction of `client.upload` (everything before
`http.DefaultClient.Do`). `stat` models `os.Stat(path)`: either an error
or the file's byte size. On a stat error the function returns the
`stat asset` error and no request is built. -/
def mkUploadRequest (token : String) (stat : Except String Int) (uploadURL : URL)
    (path contentType : String) : Except String UploadRequest :=
  match stat with
  | Except.error e => Except.error ("stat asset: " ++ e)
  | Except.ok size =>
    let name := filepathBase path
    let u := { uploadURL with query := querySet uploadURL.query "name" name }
    Except.ok
      { method := "POST"
        url := u
        headers := [("Authorization", "token: " ++ token),
                    ("Accept", "application/vnd.github.v3+json"),
                    ("Content-Type", contentType)]
        contentLength := size }

/-- A wire response as `client.upload` consumes it: status code, status
text, and the body bytes read by `io.ReadAll` for the error message. -/
structure UploadResponse where
  status : Nat
  statusText : String
  body : String
deriving DecidableEq, Repr

/-- Response handling of `client.upload`: requires 201 Created, otherwise
an error carrying the request URL, status text, and the response body. -/
def uploadRespCheck (u : URL) (resp : UploadResponse) : Except String Unit :=
  if resp.status ≠ 201 then
    Except.error ("unexpected status code " ++ urlString u ++ ": " ++
      resp.statusText ++ ": " ++ resp.body)
  else
    Except.ok ()

/-- Model of `client.upload` from release.go: stat the file, build the POST
request, perform it (`respond` models the HTTP round trip), and check for
201 Created. -/
def upload (token : String) (stat : Except String Int) (uploadURL : URL)
    (path contentType : String) (respond : UploadRequest → UploadResponse) :
    Except String Unit :=
  match mkUploadRequest token stat uploadURL path contentType with
  | Except.error e => Except.error e
  | Except.ok req => uploadRespCheck req.url (respond req)

/-- A directory entry as returned by `os.ReadDir`: a name and whether the
entry is a directory. -/
structure DirEntry where
  name : String
  isDir : Bool
deriving DecidableEq, Repr

/-- The fixed directory `main` reads. -/
def binDir : String := "./bin"

/-- The content-type classification in `main`'s loop: `.zip` maps to
`application/zip`, otherwise `.tar.gz` maps to `application/gzip`,
otherwise the entry is skipped (`ct == ""`, modelled as `none`). -/
def contentTypeFor (name : String) : Option String :=
  if hasSuffix name ".zip" then some contentTypeZIP
  else if hasSuffix name ".tar.gz" then some contentTypeTARGZ
  else none

/-- Decidable equality for `Except` results, so concrete runs of the
embedded functions can be checked by evaluation. -/
instance {α β : Type} [DecidableEq α] [DecidableEq β] : DecidableEq (Except α β) :=
  fun x y =>
    match x, y with
    | Except.ok a, Except.ok b =>
      if h : a = b then Decidable.isTrue (by rw [h])
      else Decidable.isFalse (fun hh => h (Except.ok.inj hh))
    | Except.error a, Except.error b =>
      if h : a = b then Decidable.isTrue (by rw [h])
      else Decidable.isFalse (fun hh => h (Except.error.inj hh))
    | Except.ok _, Except.error _ => Decidable.isFalse (fun hh => Except.noConfusion hh)
    | Except.error _, Except.ok _ => Decidable.isFalse (fun hh => Except.noConfusion hh)

/-- Rejoin slash-split segments with slashes (the inverse of
`splitOnSlash`, used to reason about it). -/
def joinSegsChar : List (List Char) → List Char
  | [] => []
  | [s] => s
  | s :: ss => s ++ '/' :: joinSegsChar ss

/-- The upload loop of `main` over a directory listing. `up` models a call
`c.upload(ctx, url, path, ct)` (path and content type to outcome). The
result records, in order, each attempted upload as (entry name, content
type), and the error message of the failed upload when one fails: on the
first failing upload `main` calls `log.Fatalf`, so no later entry is
processed. -/
def runUploads (up : String → String → Except String Unit) :
    List DirEntry → List (String × String) × Option String
  | [] => ([], none)
  | e :: rest =>
    if e.isDir then runUploads up rest
    else
      match contentTypeFor e.name with
      | none => runUploads up rest
      | some ct =>
        match up (pathJoin [binDir, e.name]) ct with
        | Except.ok _ =>
          ((e.name, ct) :: (runUploads up rest).1, (runUploads up rest).2)
        | Except.error m => ([(e.name, ct)], some m)

/-- The uploads `main`'s loop selects from a listing, in listing order:
non-directory entries whose name matches one of the two suffixes, paired
with their content type. -/
def planUploads (entries : List DirEntry) : List (String × String) :=
  entries.filterMap fun e =>
    if e.isDir then none
    else (contentTypeFor e.name).map fun ct => (e.name, ct)

/-- Whether the upload of a planned (name, content type) pair succeeds
under the upload model `up`, as `main` invokes it. -/
def uploadOk (up : String → String → Except String Unit) (p : String × String) : Bool :=
  match up (pathJoin [binDir, p.1]) p.2 with
  | Except.ok _ => true
  | Except.error _ => false

/-- The error message the upload of a planned pair produces under `up`,
when it fails. -/
def uploadErr (up : String → String → Except String Unit) (p : String × String) :
    Option String :=
  match up (pathJoin [binDir, p.1]) p.2 with
  | Except.ok _ => none
  | Except.error m => some m

/-! ## Theorems -/

/-- Finding the first brace in a list that starts with a brace-free prefix
locates exactly the end of that prefix. -/
theorem findIdx_brace_after_clean_part (pre post : List Char) (h : '{' ∉ pre) :
    (pre ++ '{' :: post).findIdx? (fun c => c = '{') = some pre.length := by
  rw [List.findIdx?_append]
  have hpre : pre.findIdx? (fun c => c = '{') = none := by
    rw [List.findIdx?_eq_none_iff]
    intro x hx
    simp only [decide_eq_false_iff_not]
    intro hxeq
    exact h (hxeq ▸ hx)
  rw [hpre]
  simp [List.findIdx?_cons]

/-- C3: when the decoded upload-URL template contains a brace, the
template-stripping step of `client.uploadURL` returns exactly the prefix
strictly before the first brace. -/
theorem C3_strip_truncates_at_first_brace (pre post : List Char) (h : '{' ∉ pre) :
    stripUploadTemplate (String.mk (pre ++ '{' :: post)) = String.mk pre := by
  unfold stripUploadTemplate
  have htl : (String.mk (pre ++ '{' :: post)).toList = pre ++ '{' :: post := rfl
  rw [htl, findIdx_brace_after_clean_part pre post h]
  show String.mk (List.take pre.length (pre ++ '{' :: post)) = String.mk pre
  rw [List.take_left]

/-- Witness for C3 on the template `https://u.test/assets` + brace suffix. -/
theorem C3_witness :
    '{' ∉ "https://u.test/assets".toList ∧
      stripUploadTemplate
          (String.mk ("https://u.test/assets".toList ++ '{' :: "?name,label\x7d".toList)) =
        String.mk "https://u.test/assets".toList :=
  ⟨by decide, C3_strip_truncates_at_first_brace _ _ (by decide)⟩

/-- C9: on a brace-free string, the template-stripping step of
`client.uploadURL` is the identity. -/
theorem C9_strip_identity_on_brace_free (s : String) (h : '{' ∉ s.toList) :
    stripUploadTemplate s = s := by
  unfold stripUploadTemplate
  have hfind : s.toList.findIdx? (fun c => c = '{') = none := by
    rw [List.findIdx?_eq_none_iff]
    intro x hx
    simp only [decide_eq_false_iff_not]
    intro hxeq
    exact h (hxeq ▸ hx)
  rw [hfind]

/-- Witness for C9 on a brace-free upload URL. -/
theorem C9_witness :
    '{' ∉ "https://uploads.test/repos/o/r/releases/1/assets".toList ∧
      stripUploadTemplate "https://uploads.test/repos/o/r/releases/1/assets" =
        "https://uploads.test/repos/o/r/releases/1/assets" :=
  ⟨by decide, C9_strip_identity_on_brace_free _ (by decide)⟩

/-- C5: when `GITHUB_ACTIONS` is unset (reads as the empty string) or is
any value other than the exact string `true`, `clientFromEnv` fails with
the "not running" error, whatever the other variables and the URL parser
hold. -/
theorem C5_not_under_actions (parseURL : String → Option URL) (env : String → String)
    (h : env envActions ≠ "true") :
    clientFromEnv parseURL env = Except.error "not running under github actions" := by
  unfold clientFromEnv
  rw [if_pos]
  exact h

/-- Witness for C5: a fully empty environment. -/
theorem C5_witness :
    ((fun _ => "") : String → String) envActions ≠ "true" ∧
      clientFromEnv (fun _ => none) (fun _ => "") =
        Except.error "not running under github actions" :=
  ⟨by decide, C5_not_under_actions (fun _ => none) (fun _ => "") (by decide)⟩

/-- C6: with the CI flag correct, `clientFromEnv` checks
`GITHUB_API_URL`, `GITHUB_REF_NAME`, `GITHUB_REPOSITORY`, `GITHUB_TOKEN`
in that order, failing with an error naming the first empty one; when all
four are non-empty and the base URL parses, it succeeds with the client
built from those variables. -/
theorem C6_env_vars_in_order (parseURL : String → Option URL) (env : String → String)
    (hflag : env envActions = "true") :
    (env envAPIURL = "" →
      clientFromEnv parseURL env =
        Except.error "expected environment variable not present: GITHUB_API_URL")
    ∧ (env envAPIURL ≠ "" → env envRef = "" →
      clientFromEnv parseURL env =
        Except.error "expected environment variable not present: GITHUB_REF_NAME")
    ∧ (env envAPIURL ≠ "" → env envRef ≠ "" → env envRepo = "" →
      clientFromEnv parseURL env =
        Except.error "expected environment variable not present: GITHUB_REPOSITORY")
    ∧ (env envAPIURL ≠ "" → env envRef ≠ "" → env envRepo ≠ "" → env envToken = "" →
      clientFromEnv parseURL env =
        Except.error "expected environment variable not present: GITHUB_TOKEN")
    ∧ (∀ u, env envAPIURL ≠ "" → env envRef ≠ "" → env envRepo ≠ "" → env envToken ≠ "" →
      parseURL (env envAPIURL) = some u →
      clientFromEnv parseURL env =
        Except.ok { baseURL := u, repo := env envRepo, ref := env envRef,
                    token := env envToken }) := by
  have hne : ¬ env envActions ≠ envActionsValTrue := by
    simp [envActionsValTrue, hflag]
  refine ⟨fun h1 => ?_, fun h1 h2 => ?_, fun h1 h2 h3 => ?_, fun h1 h2 h3 h4 => ?_,
    fun u h1 h2 h3 h4 hp => ?_⟩ <;>
    simp_all [clientFromEnv, envAPIURL, envRef, envRepo, envToken]

/-- Witness for C6: one environment missing `GITHUB_API_URL` and one
complete environment. -/
theorem C6_witness :
    clientFromEnv (fun _ => none)
        (fun k => if k = "GITHUB_ACTIONS" then "true" else "") =
      Except.error "expected environment variable not present: GITHUB_API_URL"
    ∧ clientFromEnv (fun _ => some ⟨"https", "api.github.com", "", []⟩)
        (fun k =>
          if k = "GITHUB_ACTIONS" then "true"
          else if k = "GITHUB_API_URL" then "https://api.github.com"
          else if k = "GITHUB_REF_NAME" then "v1.0.0"
          else if k = "GITHUB_REPOSITORY" then "ericchiang/log4jscanner"
          else "secret") =
      Except.ok { baseURL := ⟨"https", "api.github.com", "", []⟩,
                  repo := "ericchiang/log4jscanner", ref := "v1.0.0",
                  token := "secret" } :=
  ⟨(C6_env_vars_in_order (fun _ => none)
      (fun k => if k = "GITHUB_ACTIONS" then "true" else "") (by decide)).1 (by decide),
   (C6_env_vars_in_order (fun _ => some ⟨"https", "api.github.com", "", []⟩)
      (fun k =>
        if k = "GITHUB_ACTIONS" then "true"
        else if k = "GITHUB_API_URL" then "https://api.github.com"
        else if k = "GITHUB_REF_NAME" then "v1.0.0"
        else if k = "GITHUB_REPOSITORY" then "ericchiang/log4jscanner"
        else "secret") (by decide)).2.2.2.2 ⟨"https", "api.github.com", "", []⟩
      (by decide) (by decide) (by decide) (by decide) rfl⟩

/-- C7: when the file stats successfully, `client.upload` builds a POST
request whose URL carries the query parameter `name` bound (uniquely) to
the file's base name, whose `Content-Type` header is the caller-supplied
label, and whose content length is the size reported by stat. -/
theorem C7_upload_request_fields (token : String) (size : Int) (u : URL)
    (path contentType : String) :
    ∃ req, mkUploadRequest token (Except.ok size) u path contentType = Except.ok req
      ∧ req.method = "POST"
      ∧ ("name", filepathBase path) ∈ req.url.query
      ∧ (∀ v, ("name", v) ∈ req.url.query → v = filepathBase path)
      ∧ ("Content-Type", contentType) ∈ req.headers
      ∧ req.contentLength = size := by
  refine ⟨_, rfl, rfl, ?_, ?_, ?_, rfl⟩
  · simp [querySet]
  · intro v hv
    simp only [querySet, List.mem_append, List.mem_filter, List.mem_singleton] at hv
    rcases hv with ⟨_, hne⟩ | hv
    · simp at hne
    · exact (Prod.mk.injEq _ _ _ _ ▸ hv).2
  · simp

/-- C8: once the request is built, `client.upload` succeeds exactly when
the response status is 201 Created; on any other status it returns an
error whose message ends with the response body. -/
theorem C8_upload_requires_201 (token : String) (size : Int) (u : URL)
    (path contentType : String) (respond : UploadRequest → UploadResponse)
    (req : UploadRequest)
    (hreq : mkUploadRequest token (Except.ok size) u path contentType = Except.ok req) :
    (upload token (Except.ok size) u path contentType respond = Except.ok ()
      ↔ (respond req).status = 201)
    ∧ ((respond req).status ≠ 201 →
      ∃ pre, upload token (Except.ok size) u path contentType respond =
        Except.error (pre ++ (respond req).body)) := by
  unfold upload
  rw [hreq]
  unfold uploadRespCheck
  by_cases h : (respond req).status = 201
  · simp [h]
  · constructor
    · simp [h]
    · intro _
      exact ⟨"unexpected status code " ++ urlString req.url ++ ": " ++
        (respond req).statusText ++ ": ", by simp [h, String.append_assoc]⟩

/-- Witness for C8: a 201 response makes the upload succeed. -/
theorem C8_witness :
    upload "secret" (Except.ok 3) ⟨"https", "uploads.test", "/a", []⟩ "bin/a.zip"
        "application/zip" (fun _ => ⟨201, "201 Created", ""⟩) = Except.ok () :=
  (C8_upload_requires_201 "secret" 3 ⟨"https", "uploads.test", "/a", []⟩ "bin/a.zip"
    "application/zip" (fun _ => ⟨201, "201 Created", ""⟩) _ rfl).1.mpr rfl

/-- C10: when the stat of the file fails, `client.upload` returns the
stat error whatever the HTTP layer would answer, and no request is built
at all (`mkUploadRequest` already fails). -/
theorem C10_stat_failure_stops_upload (token e : String) (u : URL)
    (path contentType : String) (respond : UploadRequest → UploadResponse) :
    upload token (Except.error e) u path contentType respond =
      Except.error ("stat asset: " ++ e)
    ∧ mkUploadRequest token (Except.error e) u path contentType =
      Except.error ("stat asset: " ++ e) :=
  ⟨rfl, rfl⟩

/-- A directory entry is skipped by the upload loop. -/
theorem runUploads_cons_dir (up : String → String → Except String Unit)
    {e : DirEntry} (rest : List DirEntry) (hd : e.isDir = true) :
    runUploads up (e :: rest) = runUploads up rest := by
  simp [runUploads, hd]

/-- A file matching no suffix is skipped by the upload loop. -/
theorem runUploads_cons_skip (up : String → String → Except String Unit)
    {e : DirEntry} (rest : List DirEntry) (hd : e.isDir = false)
    (hct : contentTypeFor e.name = none) :
    runUploads up (e :: rest) = runUploads up rest := by
  simp [runUploads, hd, hct]

/-- A matching file whose upload succeeds is recorded and the loop
continues. -/
theorem runUploads_cons_ok (up : String → String → Except String Unit)
    {e : DirEntry} {ct : String} (rest : List DirEntry) (hd : e.isDir = false)
    (hct : contentTypeFor e.name = some ct) {v : Unit}
    (hup : up (pathJoin [binDir, e.name]) ct = Except.ok v) :
    runUploads up (e :: rest) =
      ((e.name, ct) :: (runUploads up rest).1, (runUploads up rest).2) := by
  simp [runUploads, hd, hct, hup]

/-- A matching file whose upload fails ends the loop with its error. -/
theorem runUploads_cons_err (up : String → String → Except String Unit)
    {e : DirEntry} {ct m : String} (rest : List DirEntry) (hd : e.isDir = false)
    (hct : contentTypeFor e.name = some ct)
    (hup : up (pathJoin [binDir, e.name]) ct = Except.error m) :
    runUploads up (e :: rest) = ([(e.name, ct)], some m) := by
  simp [runUploads, hd, hct, hup]

/-- A directory entry contributes nothing to the upload plan. -/
theorem planUploads_cons_dir {e : DirEntry} (rest : List DirEntry)
    (hd : e.isDir = true) : planUploads (e :: rest) = planUploads rest := by
  simp [planUploads, List.filterMap_cons, hd]

/-- A non-matching file contributes nothing to the upload plan. -/
theorem planUploads_cons_skip {e : DirEntry} (rest : List DirEntry)
    (hd : e.isDir = false) (hct : contentTypeFor e.name = none) :
    planUploads (e :: rest) = planUploads rest := by
  simp [planUploads, List.filterMap_cons, hd, hct]

/-- A matching file heads the upload plan with its content type. -/
theorem planUploads_cons_match {e : DirEntry} {ct : String} (rest : List DirEntry)
    (hd : e.isDir = false) (hct : contentTypeFor e.name = some ct) :
    planUploads (e :: rest) = (e.name, ct) :: planUploads rest := by
  simp [planUploads, List.filterMap_cons, hd, hct]

/-- C1: uploads are only ever attempted for non-directory entries whose
name matches `.zip` (content type `application/zip`) or `.tar.gz`
(content type `application/gzip`), and when every upload succeeds the
attempts are exactly those entries in listing order; directories and
non-matching files are skipped. -/
theorem C1_attempts_exactly_matching_entries
    (up : String → String → Except String Unit) (entries : List DirEntry) :
    (∃ rest, planUploads entries = (runUploads up entries).1 ++ rest)
    ∧ ((∀ p ct, up p ct = Except.ok ()) →
      runUploads up entries = (planUploads entries, none)) := by
  induction entries with
  | nil => exact ⟨⟨[], rfl⟩, fun _ => rfl⟩
  | cons e rest ih =>
    cases hd : e.isDir with
    | true =>
      rw [runUploads_cons_dir up rest hd, planUploads_cons_dir rest hd]
      exact ih
    | false =>
      cases hct : contentTypeFor e.name with
      | none =>
        rw [runUploads_cons_skip up rest hd hct, planUploads_cons_skip rest hd hct]
        exact ih
      | some ct =>
        rw [planUploads_cons_match rest hd hct]
        cases hup : up (pathJoin [binDir, e.name]) ct with
        | ok v =>
          rw [runUploads_cons_ok up rest hd hct hup]
          constructor
          · obtain ⟨r, hr⟩ := ih.1
            exact ⟨r, by simp [hr]⟩
          · intro hall
            rw [ih.2 hall]
        | error m =>
          rw [runUploads_cons_err up rest hd hct hup]
          constructor
          · exact ⟨planUploads rest, rfl⟩
          · intro hall
            exact absurd ((hall _ _).symm.trans hup) (by simp)

/-- Witness for C1 on the spec's example listing: `a.zip`, `b.tar.gz`,
`c.txt`, and a subdirectory `d`. -/
theorem C1_witness :
    runUploads (fun _ _ => Except.ok ())
        [⟨"a.zip", false⟩, ⟨"b.tar.gz", false⟩, ⟨"c.txt", false⟩, ⟨"d", true⟩] =
      ([("a.zip", "application/zip"), ("b.tar.gz", "application/gzip")], none) := by
  have h := (C1_attempts_exactly_matching_entries (fun _ _ => Except.ok ())
    [⟨"a.zip", false⟩, ⟨"b.tar.gz", false⟩, ⟨"c.txt", false⟩, ⟨"d", true⟩]).2
    (fun _ _ => rfl)
  rw [h]
  decide

/-- C2: the upload loop of `main` processes the matching entries in
listing order and stops at the first failing upload: the attempted
uploads are the successful ones up to and including the first failure,
and nothing after it. -/
theorem C2_first_failure_aborts (up : String → String → Except String Unit)
    (entries : List DirEntry) :
    runUploads up entries =
      match (planUploads entries).dropWhile (uploadOk up) with
      | [] => (planUploads entries, none)
      | p :: _ =>
        ((planUploads entries).takeWhile (uploadOk up) ++ [p], uploadErr up p) := by
  induction entries with
  | nil => rfl
  | cons e rest ih =>
    cases hd : e.isDir with
    | true =>
      rw [runUploads_cons_dir up rest hd, planUploads_cons_dir rest hd]
      exact ih
    | false =>
      cases hct : contentTypeFor e.name with
      | none =>
        rw [runUploads_cons_skip up rest hd hct, planUploads_cons_skip rest hd hct]
        exact ih
      | some ct =>
        rw [planUploads_cons_match rest hd hct]
        cases hup : up (pathJoin [binDir, e.name]) ct with
        | ok v =>
          rw [runUploads_cons_ok up rest hd hct hup]
          have hok : uploadOk up (e.name, ct) = true := by
            simp [uploadOk, hup]
          rw [List.dropWhile_cons_of_pos hok, List.takeWhile_cons_of_pos hok, ih]
          cases hdw : (planUploads rest).dropWhile (uploadOk up) with
          | nil => rfl
          | cons p tl => rfl
        | error m =>
          rw [runUploads_cons_err up rest hd hct hup]
          have hok : ¬ uploadOk up (e.name, ct) = true := by
            simp [uploadOk, hup]
          rw [List.dropWhile_cons_of_neg hok, List.takeWhile_cons_of_neg hok]
          have herr : uploadErr up (e.name, ct) = some m := by
            simp [uploadErr, hup]
          simp [herr]

/-- Joining the release-lookup path segments with slashes is plain
concatenation around the repository and tag strings. -/
theorem intercalate_repos (b d : String) :
    String.intercalate "/" ["/repos", b, "releases/tags", d] =
      "/repos/" ++ b ++ "/releases/tags/" ++ d := by
  simp only [String.intercalate, String.intercalate.go]
  apply String.ext
  simp only [String.data_append]
  simp

/-- Go `path.Join` on the release-lookup segments is `path.Clean` of the
concatenated path. -/
theorem pathJoin_repos (b d : String) :
    pathJoin ["/repos", b, "releases/tags", d] =
      pathClean ("/repos/" ++ b ++ "/releases/tags/" ++ d) := by
  unfold pathJoin
  rw [List.dropWhile_cons_of_neg (by decide)]
  show pathClean (String.intercalate "/" ["/repos", b, "releases/tags", d]) = _
  rw [intercalate_repos]

/-- Splitting on slashes never yields an empty segment list. -/
theorem splitOnSlash_ne_nil (l : List Char) : splitOnSlash l ≠ [] := by
  cases l with
  | nil => simp [splitOnSlash]
  | cons c rest =>
    by_cases hc : c = '/'
    · simp [splitOnSlash, hc]
    · simp only [splitOnSlash, if_neg hc]
      cases hsp : splitOnSlash rest <;> simp

/-- Splitting distributes over an explicit slash between two parts. -/
theorem splitOnSlash_append (s t : List Char) :
    splitOnSlash (s ++ '/' :: t) = splitOnSlash s ++ splitOnSlash t := by
  induction s with
  | nil => simp [splitOnSlash]
  | cons c s2 ih =>
    have ih2 : splitOnSlash (s2.append ('/' :: t)) = splitOnSlash s2 ++ splitOnSlash t := ih
    by_cases hc : c = '/'
    · subst hc
      simp only [List.cons_append, splitOnSlash]
      rw [ih2]
      simp
    · simp only [List.cons_append, splitOnSlash, if_neg hc]
      rw [ih2]
      cases hsp : splitOnSlash s2 with
      | nil => exact absurd hsp (splitOnSlash_ne_nil s2)
      | cons x xs => simp [hsp]

/-- Rejoining the slash-split of a character list gives it back. -/
theorem joinSegsChar_splitOnSlash (l : List Char) :
    joinSegsChar (splitOnSlash l) = l := by
  induction l with
  | nil => rfl
  | cons c rest ih =>
    by_cases hc : c = '/'
    · subst hc
      simp only [splitOnSlash, if_pos rfl]
      cases hsp : splitOnSlash rest with
      | nil => exact absurd hsp (splitOnSlash_ne_nil rest)
      | cons s ss =>
        rw [hsp] at ih
        simp only [joinSegsChar]
        cases ss <;> simp_all [joinSegsChar]
    · simp only [splitOnSlash, if_neg hc]
      cases hsp : splitOnSlash rest with
      | nil => exact absurd hsp (splitOnSlash_ne_nil rest)
      | cons s ss =>
        rw [hsp] at ih
        cases ss with
        | nil => simp_all [joinSegsChar]
        | cons t ts =>
          simp only [joinSegsChar] at ih ⊢
          simp [ih]

/-- Prepending a segment and a slash commutes with rejoining. -/
theorem joinSegsChar_cons_append (a b : List Char) (ss : List (List Char)) :
    joinSegsChar ((a ++ '/' :: b) :: ss) = a ++ '/' :: joinSegsChar (b :: ss) := by
  cases ss with
  | nil => rfl
  | cons t ts => simp [joinSegsChar]

/-- Intercalating slash-mapped segments is rejoining at the character
level. -/
theorem intercalate_go_joinSegs (acc : List Char) (segs : List (List Char)) :
    String.intercalate.go (String.mk acc) "/" (segs.map String.mk) =
      String.mk (joinSegsChar (acc :: segs)) := by
  induction segs generalizing acc with
  | nil => rfl
  | cons s ss ih =>
    simp only [List.map_cons, String.intercalate.go]
    have hsld : "/".data = ['/'] := rfl
    have hmk : String.mk acc ++ "/" ++ String.mk s = String.mk (acc ++ '/' :: s) := by
      apply String.ext
      simp [String.data_append, hsld]
    rw [hmk, ih (acc ++ '/' :: s), joinSegsChar_cons_append]
    rfl

/-- String intercalation with `/` of mapped segments rejoins them. -/
theorem intercalate_joinSegs (segs : List (List Char)) :
    String.intercalate "/" (segs.map String.mk) = String.mk (joinSegsChar segs) := by
  cases segs with
  | nil => rfl
  | cons s ss =>
    simp only [List.map_cons, String.intercalate]
    exact intercalate_go_joinSegs s ss

/-- On dot-free segments, `resolvePath`'s stack building just reverses
the segment list. -/
theorem foldl_resolveSegsPush (segs : List String) (acc : List String)
    (h : ∀ s ∈ segs, s ≠ "." ∧ s ≠ "..") :
    segs.foldl resolveSegsPush acc = segs.reverse ++ acc := by
  induction segs generalizing acc with
  | nil => simp
  | cons s ss ih =>
    have hs := h s (by simp)
    have hpush : resolveSegsPush acc s = s :: acc := by
      simp [resolveSegsPush, hs.1, hs.2]
    simp only [List.foldl_cons, hpush]
    rw [ih (s :: acc) (fun x hx => h x (by simp [hx]))]
    simp

/-- On rooted cleaning of segments that are non-empty and dot-free, the
stack building of `path.Clean` just reverses the segment list. -/
theorem foldl_cleanPush_rooted (segs : List String) (acc : List String)
    (h : ∀ s ∈ segs, s ≠ "" ∧ s ≠ "." ∧ s ≠ "..") :
    segs.foldl (cleanPush true) acc = segs.reverse ++ acc := by
  induction segs generalizing acc with
  | nil => simp
  | cons s ss ih =>
    have hs := h s (by simp)
    have hpush : cleanPush true acc s = s :: acc := by
      simp [cleanPush, hs.1, hs.2.1, hs.2.2]
    simp only [List.foldl_cons, hpush]
    rw [ih (s :: acc) (fun x hx => h x (by simp [hx]))]
    simp

/-- The last element of a list with a non-empty tail is the tail's. -/
theorem getLast?_cons_of_ne_nil {α : Type} (x : α) (l : List α) (h : l ≠ []) :
    (x :: l).getLast? = l.getLast? := by
  cases l with
  | nil => exact absurd rfl h
  | cons y ys => rfl

/-- `path.Clean` is the identity on rooted paths whose segments are all
non-empty and dot-free. -/
theorem pathClean_rooted_eq (t : List Char)
    (hsegs : ∀ s ∈ splitOnSlash t, s ≠ [] ∧ s ≠ ['.'] ∧ s ≠ ['.', '.']) :
    pathClean (String.mk ('/' :: t)) = String.mk ('/' :: t) := by
  have hne : ¬ (String.mk ('/' :: t) = "") := by
    intro h
    exact absurd (congrArg String.data h) (by simp)
  have hroot : isRooted (String.mk ('/' :: t)) = true := rfl
  have htl : (String.mk ('/' :: t)).toList = '/' :: t := rfl
  have hsplit : splitOnSlash ('/' :: t) = [] :: splitOnSlash t := by
    simp [splitOnSlash]
  have hmkne : ∀ s ∈ (splitOnSlash t).map String.mk,
      s ≠ "" ∧ s ≠ "." ∧ s ≠ ".." := by
    intro s hsm
    obtain ⟨cs, hcs, rfl⟩ := List.mem_map.mp hsm
    have h3 := hsegs cs hcs
    refine ⟨?_, ?_, ?_⟩ <;>
      intro hmk <;>
      [exact h3.1 (congrArg String.data hmk);
       exact h3.2.1 (congrArg String.data hmk);
       exact h3.2.2 (congrArg String.data hmk)]
  unfold pathClean
  rw [if_neg hne, htl, hroot, hsplit]
  simp only [List.map_cons, List.foldl_cons]
  have hfirst : cleanPush true [] (String.mk []) = [] := rfl
  rw [hfirst, foldl_cleanPush_rooted _ [] hmkne]
  simp only [List.append_nil, List.reverse_reverse, if_pos rfl]
  rw [intercalate_joinSegs, joinSegsChar_splitOnSlash]
  apply String.ext
  simp [String.data_append]

/-- Go `resolvePath` is the identity on rooted paths with dot-free
segments. -/
theorem resolvePathGo_rooted_eq (l : List Char) (hroot : ∃ u, l = '/' :: u)
    (hsegs : ∀ s ∈ splitOnSlash l, s ≠ ['.'] ∧ s ≠ ['.', '.']) :
    resolvePathGo l = String.mk l := by
  have hmkne : ∀ s ∈ (splitOnSlash l).map String.mk,
      s ≠ "." ∧ s ≠ ".." := by
    intro s hsm
    obtain ⟨cs, hcs, rfl⟩ := List.mem_map.mp hsm
    have h3 := hsegs cs hcs
    exact ⟨fun hmk => h3.1 (congrArg String.data hmk),
           fun hmk => h3.2 (congrArg String.data hmk)⟩
  have hlast : ¬ ((((splitOnSlash l).map String.mk).getLast?).getD "" = "." ∨
      (((splitOnSlash l).map String.mk).getLast?).getD "" = "..") := by
    cases hget : ((splitOnSlash l).map String.mk).getLast? with
    | none => simp [hget]
    | some s =>
      have hmem : s ∈ (splitOnSlash l).map String.mk :=
        List.mem_of_mem_getLast? (Option.mem_def.mpr hget)
      have hs := hmkne s hmem
      simp [hget, hs.1, hs.2]
  unfold resolvePathGo
  dsimp only
  rw [foldl_resolveSegsPush _ [] hmkne]
  simp only [List.append_nil, List.reverse_reverse]
  rw [if_neg hlast, intercalate_joinSegs, joinSegsChar_splitOnSlash]
  obtain ⟨u, rfl⟩ := hroot
  have htrim : trimOneSlash (String.mk ('/' :: u)) = String.mk u := rfl
  rw [htrim]
  apply String.ext
  simp [String.data_append]

/-- Cutting at a separator that does not occur returns the whole list. -/
theorem splitAtFirst_of_not_mem (sep : Char) (l : List Char) (h : sep ∉ l) :
    splitAtFirst sep l = (l, none) := by
  induction l with
  | nil => rfl
  | cons c rest ih =>
    have hc : ¬ c = sep := fun hc => h (by simp [hc])
    have hrest : sep ∉ rest := fun hm => h (by simp [hm])
    simp [splitAtFirst, hc, ih hrest]

/-- A list without percent signs passes escape validation. -/
theorem validEscapes_of_not_mem (l : List Char) (h : '%' ∉ l) :
    validEscapes l = true := by
  induction l with
  | nil => rfl
  | cons c rest ih =>
    have hc : ¬ c = '%' := fun hc => h (by simp [hc])
    have hrest : '%' ∉ rest := fun hm => h (by simp [hm])
    unfold validEscapes
    rw [if_neg hc]
    exact ih hrest

/-- C4 counterexample: for a base URL that carries its own path (as a
GitHub Enterprise `GITHUB_API_URL` does), the request URL built by
`client.uploadURL` is not
`\x7bbase\x7d/repos/\x7brepo\x7d/releases/tags/\x7bref\x7d`: the base
URL's path is dropped by the reference resolution. -/
theorem C4_counterexample :
    uploadURLReq
        { baseURL := { scheme := "https", host := "ghe.example.com",
                       path := "/api/v3", query := [] },
          repo := "octo/hello", ref := "v1.0.0", token := "secret" } =
      Except.ok { scheme := "https", host := "ghe.example.com",
                  path := "/repos/octo/hello/releases/tags/v1.0.0",
                  rawQuery := none, fragment := "" }
    ∧ lookupURLString { scheme := "https", host := "ghe.example.com",
                        path := "/repos/octo/hello/releases/tags/v1.0.0",
                        rawQuery := none, fragment := "" } ≠
      urlString { scheme := "https", host := "ghe.example.com",
                  path := "/api/v3", query := [] } ++
        "/repos/" ++ "octo/hello" ++ "/releases/tags/" ++ "v1.0.0" :=
  ⟨by decide, by decide⟩

/-- C4 (amended): `client.uploadURL` URL-parses the joined path
`path.Join("/repos", repo, "releases/tags", ref)` as a reference and
resolves it against the base URL: a parse failure (control character,
invalid percent-escape) aborts with a `parse url` error before any
request; otherwise the request targets the resolved URL, the lookup
succeeds only when the response status is 200, and it does succeed on a
200 response that decodes. For plain repository and tag strings (no
empty or dot segments, no `?`, `#`, `%` or control characters) and a
base URL without path or query, the request URL is exactly
`\x7bbase\x7d/repos/\x7brepo\x7d/releases/tags/\x7bref\x7d`. -/
theorem C4_lookup_request (c : Client) (respond : LookupURL → LookupResponse) :
    (∀ e, uploadURLReq c = Except.error e →
      uploadURLFn c respond = Except.error ("parse url: " ++ e))
    ∧ (∀ u, uploadURLReq c = Except.ok u →
      ∀ s, uploadURLFn c respond = Except.ok s → (respond u).status = 200)
    ∧ (∀ u, uploadURLReq c = Except.ok u → (respond u).status = 200 →
      ∀ s, (respond u).decodedUploadURL = some s →
        uploadURLFn c respond = Except.ok (stripUploadTemplate s))
    ∧ (plainSegments c.repo → plainSegments c.ref →
      c.baseURL.path = "" → c.baseURL.query = [] →
      uploadURLReq c = Except.ok
        { scheme := c.baseURL.scheme, host := c.baseURL.host,
          path := "/repos/" ++ c.repo ++ "/releases/tags/" ++ c.ref,
          rawQuery := none, fragment := "" }
      ∧ lookupURLString
          { scheme := c.baseURL.scheme, host := c.baseURL.host,
            path := "/repos/" ++ c.repo ++ "/releases/tags/" ++ c.ref,
            rawQuery := none, fragment := "" } =
        urlString c.baseURL ++ "/repos/" ++ c.repo ++ "/releases/tags/" ++ c.ref) := by
  refine ⟨?_, ?_, ?_, ?_⟩
  · intro e he
    simp [uploadURLFn, he]
  · intro u hu s hs
    by_contra hne
    simp only [uploadURLFn, hu] at hs
    rw [if_pos hne] at hs
    exact Except.noConfusion hs
  · intro u hu h200 s hdec
    simp [uploadURLFn, hu, h200, hdec]
  · intro hrepo href h0 hq
    obtain ⟨t0, ht0⟩ : ∃ t0, t0 =
        "repos".toList ++ '/' :: (c.repo.toList ++ '/' ::
          ("releases/tags".toList ++ '/' :: c.ref.toList)) := ⟨_, rfl⟩
    have hconcat : "/repos/" ++ c.repo ++ "/releases/tags/" ++ c.ref =
        String.mk ('/' :: t0) := by
      apply String.ext
      rw [ht0]
      have h1 : "/repos/".data = '/' :: ("repos".data ++ ['/']) := rfl
      have h2 : "/releases/tags/".data = '/' :: ("releases/tags".data ++ ['/']) := rfl
      simp [String.toList, String.data_append, h1, h2]
    have hsplitT : splitOnSlash t0 =
        splitOnSlash "repos".toList ++ (splitOnSlash c.repo.toList ++
          (splitOnSlash "releases/tags".toList ++ splitOnSlash c.ref.toList)) := by
      rw [ht0, splitOnSlash_append, splitOnSlash_append, splitOnSlash_append]
    have hsegT : ∀ s ∈ splitOnSlash t0, s ≠ [] ∧ s ≠ ['.'] ∧ s ≠ ['.', '.'] := by
      rw [hsplitT]
      intro s hs
      rcases List.mem_append.mp hs with h1 | hs2
      · exact (by decide : ∀ x ∈ splitOnSlash "repos".toList,
          x ≠ [] ∧ x ≠ ['.'] ∧ x ≠ ['.', '.']) s h1
      · rcases List.mem_append.mp hs2 with h2 | hs3
        · exact hrepo.1 s h2
        · rcases List.mem_append.mp hs3 with h3 | h4
          · exact (by decide : ∀ x ∈ splitOnSlash "releases/tags".toList,
              x ≠ [] ∧ x ≠ ['.'] ∧ x ≠ ['.', '.']) s h3
          · exact href.1 s h4
    have hclean : pathClean ("/repos/" ++ c.repo ++ "/releases/tags/" ++ c.ref) =
        "/repos/" ++ c.repo ++ "/releases/tags/" ++ c.ref := by
      rw [hconcat]
      exact pathClean_rooted_eq t0 hsegT
    have hjoin : pathJoin ["/repos", c.repo, "releases/tags", c.ref] =
        String.mk ('/' :: t0) :=
      ((pathJoin_repos c.repo c.ref).trans hclean).trans hconcat
    have hchars : ∀ ch ∈ '/' :: t0,
        ch ≠ '?' ∧ ch ≠ '#' ∧ ch ≠ '%' ∧ isCTLByte ch = false := by
      intro ch hch
      rcases List.mem_cons.mp hch with h1 | hcht
      · subst h1
        decide
      · rw [ht0] at hcht
        rcases List.mem_append.mp hcht with h2 | h3
        · exact (by decide : ∀ x ∈ "repos".toList,
            x ≠ '?' ∧ x ≠ '#' ∧ x ≠ '%' ∧ isCTLByte x = false) ch h2
        · rcases List.mem_cons.mp h3 with h4 | h5
          · subst h4
            decide
          · rcases List.mem_append.mp h5 with h6 | h7
            · exact hrepo.2 ch h6
            · rcases List.mem_cons.mp h7 with h8 | h9
              · subst h8
                decide
              · rcases List.mem_append.mp h9 with h10 | h11
                · exact (by decide : ∀ x ∈ "releases/tags".toList,
                    x ≠ '?' ∧ x ≠ '#' ∧ x ≠ '%' ∧ isCTLByte x = false) ch h10
                · rcases List.mem_cons.mp h11 with h12 | h13
                  · subst h12
                    decide
                  · exact href.2 ch h13
    have hsplitHash : splitAtFirst '#' ('/' :: t0) = ('/' :: t0, none) :=
      splitAtFirst_of_not_mem _ _ (fun hm => ((hchars _ hm).2.1) rfl)
    have hsplitQ : splitAtFirst '?' ('/' :: t0) = ('/' :: t0, none) :=
      splitAtFirst_of_not_mem _ _ (fun hm => ((hchars _ hm).1) rfl)
    have hctl : ('/' :: t0).any isCTLByte = false := by
      rw [List.any_eq_false]
      intro x hx
      simp [(hchars x hx).2.2.2]
    have hesc : validEscapes ('/' :: t0) = true :=
      validEscapes_of_not_mem _ (fun hm => ((hchars _ hm).2.2.1) rfl)
    have hparse : parseRef (String.mk ('/' :: t0)) =
        Except.ok { path := String.mk ('/' :: t0), rawQuery := none,
                    fragment := "" } := by
      unfold parseRef
      simp only [show (String.mk ('/' :: t0)).toList = '/' :: t0 from rfl,
        hsplitHash, hsplitQ, hctl, hesc]
      simp
    have hdots : ∀ s ∈ splitOnSlash ('/' :: t0), s ≠ ['.'] ∧ s ≠ ['.', '.'] := by
      have hsp : splitOnSlash ('/' :: t0) = [] :: splitOnSlash t0 := by
        simp [splitOnSlash]
      rw [hsp]
      intro s hs
      rcases List.mem_cons.mp hs with h1 | h2
      · subst h1
        exact ⟨by decide, by decide⟩
      · exact ⟨(hsegT s h2).2.1, (hsegT s h2).2.2⟩
    have hreq : uploadURLReq c = Except.ok
        { scheme := c.baseURL.scheme, host := c.baseURL.host,
          path := String.mk ('/' :: t0), rawQuery := none, fragment := "" } := by
      unfold uploadURLReq
      rw [hjoin, hparse]
      dsimp only [resolveRef]
      rw [show (String.mk ('/' :: t0)).toList = '/' :: t0 from rfl,
        resolvePathGo_rooted_eq ('/' :: t0) ⟨t0, rfl⟩ hdots]
    refine ⟨?_, ?_⟩
    · rw [hconcat]
      exact hreq
    · rw [hconcat]
      apply String.ext
      simp [lookupURLString, urlString, h0, hq, String.data_append]
      rw [ht0]
      rfl

/-- Witness for C4 on the standard `https://api.github.com` base URL,
a plain `owner/name` repository, a plain tag, and a 200 response
carrying a templated upload URL. -/
theorem C4_witness :
    uploadURLReq
        { baseURL := { scheme := "https", host := "api.github.com",
                       path := "", query := [] },
          repo := "octo/hello", ref := "v1.0.0", token := "secret" } =
      Except.ok { scheme := "https", host := "api.github.com",
                  path := "/repos/octo/hello/releases/tags/v1.0.0",
                  rawQuery := none, fragment := "" }
    ∧ lookupURLString { scheme := "https", host := "api.github.com",
                        path := "/repos/octo/hello/releases/tags/v1.0.0",
                        rawQuery := none, fragment := "" } =
      "https://api.github.com/repos/octo/hello/releases/tags/v1.0.0"
    ∧ uploadURLFn
        { baseURL := { scheme := "https", host := "api.github.com",
                       path := "", query := [] },
          repo := "octo/hello", ref := "v1.0.0", token := "secret" }
        (fun _ => { status := 200, statusText := "200 OK",
                    decodedUploadURL :=
                      some "https://uploads.test/assets\x7b?name,label\x7d" }) =
      Except.ok "https://uploads.test/assets" := by
  have h := C4_lookup_request
    { baseURL := { scheme := "https", host := "api.github.com",
                   path := "", query := [] },
      repo := "octo/hello", ref := "v1.0.0", token := "secret" }
    (fun _ => { status := 200, statusText := "200 OK",
                decodedUploadURL :=
                  some "https://uploads.test/assets\x7b?name,label\x7d" })
  have hc := h.2.2.2 (by decide) (by decide) rfl rfl
  refine ⟨hc.1.trans (by decide), by decide, ?_⟩
  exact (h.2.2.1 _ hc.1 rfl _ rfl).trans (congrArg Except.ok (by decide))

end Release
